import Mathlib

/-!
Shallow embedding of the go-mongo-fs image service.

The repository is a small HTTP gateway (Go, Fiber) that stores images in a
GridFS bucket of MongoDB and serves them back by object id or by filename.
The HTTP handlers, the filename-extension check, the response headers and the
error bodies are translated here from the Go source.  The chunked object
store itself (GridFS `OpenUploadStream` / `Write` / `DownloadToStream`) is
code of the MongoDB driver, not of this repository; those operations are
modelled from the specification's chunk-store contract (fixed-size chunking,
ordered reassembly, `NotFound` when no chunks exist) and are marked as such
in their doc comments.

Bytes are modelled as natural numbers, MongoDB ObjectIDs as natural numbers,
and a BSON document as a list of key/value pairs.
-/

namespace GoMongoFs

/-- Bytes of a payload are modelled as natural numbers. -/
abbrev Byte := Nat

/-- The character class `[a-zA-Z0-9]` of the source regular expression
`\.[a-zA-Z0-9]+$` used by the upload handler to extract the file extension. -/
def isAlnumAscii (c : Char) : Bool :=
  c.isAlpha || c.isDigit

/-- The extension extracted by `regexp.MustCompile(` `\.[a-zA-Z0-9]+$` `).FindString`
on a filename: the trailing maximal run of alphanumeric characters together
with the dot right before it, or `""` when the string has no such match
(no dot, empty run, or a character outside the class in the trailing run). -/
def extractExtension (f : String) : String :=
  match f.data.reverse.dropWhile isAlnumAscii with
  | c :: _ =>
    if c = '.' then
      if f.data.reverse.takeWhile isAlnumAscii = [] then ""
      else String.mk ('.' :: (f.data.reverse.takeWhile isAlnumAscii).reverse)
    else ""
  | [] => ""

/-- The upload handler's acceptance test on a filename: the extracted
extension is one of `.jpg`, `.jpeg`, `.png` (case-sensitive). -/
def extAllowed (f : String) : Bool :=
  extractExtension f == ".jpg" || extractExtension f == ".jpeg" ||
    extractExtension f == ".png"

/-- Value of one hexadecimal digit, as accepted by Go's `encoding/hex`
(digits, lowercase `a`-`f`, uppercase `A`-`F`). -/
def hexVal (c : Char) : Option Nat :=
  if 48 ≤ c.toNat ∧ c.toNat ≤ 57 then some (c.toNat - 48)
  else if 97 ≤ c.toNat ∧ c.toNat ≤ 102 then some (c.toNat - 87)
  else if 65 ≤ c.toNat ∧ c.toNat ≤ 70 then some (c.toNat - 55)
  else none

/-- Big-endian fold of hexadecimal digits; `none` on the first invalid digit. -/
def ofHexAux : List Char → Nat → Option Nat
  | [], acc => some acc
  | c :: cs, acc =>
    match hexVal c with
    | some v => ofHexAux cs (acc * 16 + v)
    | none => none

/-- `primitive.ObjectIDFromHex`: a 24-character hexadecimal string parses to
an ObjectID (modelled as the natural number it denotes); anything else is an
error. -/
def parseObjectId (s : String) : Option Nat :=
  if s.data.length = 24 then ofHexAux s.data 0 else none

/-- A fragment of the BSON value model: strings and sub-documents.  Used for
the `metadata` field of a GridFS files record, which the upload handler sets
to the document `{ext: <extension string>}`. -/
inductive BVal where
  | str : String → BVal
  | doc : List (String × BVal) → BVal

/-- Field lookup in a BSON value.  Mirrors the Go expression
`m["k"]` under the type assertion `.(bson.M)`: `none` both when the value is
not a document (the assertion panics) and when the key is absent. -/
def BVal.getField : BVal → String → Option BVal
  | .doc fields, k => (fields.find? (fun p => p.1 == k)).map (fun p => p.2)
  | .str _, _ => none

/-- The Go type assertion `.(string)` on a BSON value: the string, or `none`
(a panic in Go) when the value is not a string. -/
def BVal.asString : BVal → Option String
  | .str s => some s
  | .doc _ => none

/-- One record of the `images.files` collection. -/
structure FileDoc where
  id : Nat
  filename : String
  length : Nat
  metadata : Option BVal

/-- One record of the `images.chunks` collection: owning file id, 0-based
sequence number `n`, and the raw data block. -/
structure ChunkDoc where
  filesId : Nat
  n : Nat
  data : List Byte

/-- The persistent state of the `images` GridFS bucket: the files collection,
the chunks collection, and a counter supplying fresh ObjectIDs. -/
structure Store where
  files : List FileDoc
  chunks : List ChunkDoc
  nextId : Nat

/-- The bucket with no stored objects. -/
def emptyStore : Store :=
  { files := [], chunks := [], nextId := 0 }

/-- A small concrete store used to exercise the read path: two chunks for
id 1, stored out of sequence order, and no files records. -/
def twoChunkStore : Store :=
  { files := [],
    chunks := [{ filesId := 1, n := 1, data := [20] },
               { filesId := 1, n := 0, data := [10] }],
    nextId := 2 }

/-- A files record with well-formed `{ext: ".png"}` metadata but, in
`orphanStore` below, no chunks — the state a failed or interrupted chunk
write would leave behind. -/
def orphanDoc : FileDoc :=
  { id := 0, filename := "a.png", length := 1,
    metadata := some (.doc [("ext", .str ".png")]) }

/-- A store holding `orphanDoc` and no chunks at all. -/
def orphanStore : Store :=
  { files := [orphanDoc], chunks := [], nextId := 1 }

/-- A files record whose metadata lacks the `{ext: <string>}` shape the
download handlers assert. -/
def badDoc : FileDoc :=
  { id := 0, filename := "x.png", length := 0, metadata := none }

/-- A store holding `badDoc`. -/
def badStore : Store :=
  { files := [badDoc], chunks := [], nextId := 1 }

/-- Well-formedness of a store: every stored id was issued by the counter. -/
def Store.WF (s : Store) : Prop :=
  (∀ f ∈ s.files, f.id < s.nextId) ∧ (∀ c ∈ s.chunks, c.filesId < s.nextId)

/-- Modelled from the spec: the fixed-size chunking algorithm of the chunk
store (GridFS), which is driver code not present in this repository.  The
input is partitioned into sequential blocks of `sz` bytes; the last block may
be smaller.  `fuel` bounds the recursion and is instantiated with the input
length by `chunksOf`. -/
def chunksOfAux (sz : Nat) : Nat → List Byte → List (List Byte)
  | _, [] => []
  | 0, l => [l]
  | fuel + 1, l => l.take sz :: chunksOfAux sz fuel (l.drop sz)

/-- Modelled from the spec: partition a byte stream into blocks of `sz`
bytes, the last block possibly smaller; the empty stream yields no blocks. -/
def chunksOf (sz : Nat) (l : List Byte) : List (List Byte) :=
  chunksOfAux sz l.length l

/-- Modelled from the spec: tag each block with the owning file id and a
monotonically increasing sequence number starting at `i`. -/
def mkChunks (id : Nat) : Nat → List (List Byte) → List ChunkDoc
  | _, [] => []
  | i, b :: bs => { filesId := id, n := i, data := b } :: mkChunks id (i + 1) bs

/-- Modelled from the spec: the chunk store `write` operation (GridFS
`OpenUploadStream` with metadata `{ext: ..}` followed by `Write` and `Close`,
driver code not present in this repository).  A fresh id is allocated, the
content is split into chunks of `sz` bytes numbered from 0, and a files
record with the filename, total length and `{ext: ..}` metadata is stored.
Returns the new id and the updated store. -/
def Store.write (s : Store) (sz : Nat) (filename ext : String)
    (content : List Byte) : Nat × Store :=
  let id := s.nextId
  (id,
    { files := s.files ++
        [{ id := id, filename := filename, length := content.length,
           metadata := some (.doc [("ext", .str ext)]) }],
      chunks := s.chunks ++ mkChunks id 0 (chunksOf sz content),
      nextId := s.nextId + 1 })

/-- All chunks stored for a given file id, in collection order. -/
def Store.chunksFor (s : Store) (id : Nat) : List ChunkDoc :=
  s.chunks.filter (fun c => c.filesId == id)

/-- Modelled from the spec: the chunk store `readById` operation (GridFS
`DownloadToStream`, driver code not present in this repository).  It fetches
the chunks of `id` in ascending sequence-number order and concatenates their
data; it fails with `NotFound` when no chunks exist for the id. -/
def Store.readById (s : Store) (id : Nat) : Except String (List Byte) :=
  match List.insertionSort (fun a b => a.n ≤ b.n) (s.chunksFor id) with
  | [] => Except.error "NotFound"
  | cs => Except.ok ((cs.map (fun c => c.data)).flatten)

/-- `FindOne` on `images.files` with filter `{_id: id}`. -/
def findById (s : Store) (id : Nat) : Option FileDoc :=
  s.files.find? (fun d => d.id == id)

/-- `FindOne` on `images.files` with filter `{filename: name}`: the first
matching record in collection order. -/
def findByName (s : Store) (nm : String) : Option FileDoc :=
  s.files.find? (fun d => d.filename == nm)

/-- Modelled from the spec: the chunk store `readByFilename` operation
(GridFS `DownloadToStreamByName`, driver code not present in this
repository): resolve the filename to the first matching files record, then
behave as `readById`. -/
def Store.readByFilename (s : Store) (nm : String) : Except String (List Byte) :=
  match findByName s nm with
  | none => Except.error "NotFound"
  | some d => s.readById d.id

/-- The default GridFS chunk size used by the driver when the bucket options
set none, as this repository's code does: 255 KiB. -/
def defaultChunkSize : Nat := 261120

/-- The body of an HTTP response in this service: nothing, a structured JSON
error object `{error:true, msg:..}`, the upload success JSON object
`{error:false, msg:.., image:{id,name,size}}`, or raw bytes. -/
inductive Body where
  | empty : Body
  | jsonError : String → Body
  | jsonUpload : Nat → String → Nat → Body
  | raw : List Byte → Body

/-- Whether a body is a structured JSON object. -/
def Body.isJsonObject : Body → Bool
  | .jsonError _ => true
  | .jsonUpload _ _ _ => true
  | .empty => false
  | .raw _ => false

/-- An HTTP response: status code, headers set by the handler, body. -/
structure Response where
  status : Nat
  headers : List (String × String)
  body : Body

/-- Result of running a download handler: a response, or a runtime panic from
a failed Go type assertion. -/
inductive HResult where
  | resp : Response → HResult
  | panic : HResult

/-- The source function `setResponseHeaders`: switch on the extension for
`Content-Type` (no header for any other extension), then set `Cache-Control`
and `Content-Length` (via `strconv.Itoa(len(buff.Bytes()))`). -/
def setResponseHeaders (ext : String) (buff : List Byte) : List (String × String) :=
  (match ext with
    | ".png" => [("Content-Type", "image/png")]
    | ".jpg" => [("Content-Type", "image/jpeg")]
    | ".jpeg" => [("Content-Type", "image/jpeg")]
    | _ => []) ++
  [("Cache-Control", "public, max-age=31536000"),
   ("Content-Length", toString buff.length)]

/-- A file carried in a multipart form field: original filename and bytes. -/
structure FormFile where
  filename : String
  content : List Byte

/-- A multipart upload request: the form fields that carry files. -/
abbrev UploadRequest := List (String × FormFile)

/-- `c.FormFile(fld)`: the file of the first form field named `fld`. -/
def lookupForm (req : UploadRequest) (fld : String) : Option FormFile :=
  (req.find? (fun p => p.1 == fld)).map (fun p => p.2)

/-- The `POST /api/image` handler.  `fld` is the form field name (`"image"`
in the full source, `"file"` in the variant `main.go`), `sz` the chunk size
of the bucket.  Mirrors the source: missing file and disallowed extension
answer 400 with a JSON error body; otherwise the content is written to the
bucket with `{ext: ..}` metadata and the handler answers 201 with
`{id, name, size}`.  The model's storage layer always succeeds, so the 500
branches of the source (connection, bucket or stream failure) do not occur. -/
def postApiImage (fld : String) (sz : Nat) (s : Store) (req : UploadRequest) :
    Response × Store :=
  match lookupForm req fld with
  | none =>
    ({ status := 400, headers := [],
       body := .jsonError "there is no uploaded file associated with the given key" }, s)
  | some file =>
    let fileExtension := extractExtension file.filename
    if fileExtension ≠ ".jpg" ∧ fileExtension ≠ ".jpeg" ∧ fileExtension ≠ ".png" then
      ({ status := 400, headers := [], body := .jsonError "Invalid file type" }, s)
    else
      let out := s.write sz file.filename fileExtension file.content
      ({ status := 201, headers := [],
         body := .jsonUpload out.1 file.filename file.content.length }, out.2)

/-- The buffer after `bucket.DownloadToStream(id, &buffer)` in the by-id
handler: the handler discards the returned error, so on failure the buffer
keeps whatever was written, here nothing. -/
def bufferOf (s : Store) (id : Nat) : List Byte :=
  match s.readById id with
  | Except.ok bs => bs
  | Except.error _ => []

/-- The buffer after `bucket.DownloadToStreamByName(name, &buffer)` in the
by-name handler; the returned error is discarded just as in `bufferOf`. -/
def bufferByNameOf (s : Store) (nm : String) : List Byte :=
  match s.readByFilename nm with
  | Except.ok bs => bs
  | Except.error _ => []

/-- The `GET /api/image/id/:id` handler after the id has been parsed: 404
with a JSON error body when no files record matches; otherwise download into
a buffer (error discarded), read the extension out of the record's metadata
by untyped assertions (panic when they fail), set the headers and send the
buffer with status 200. -/
def downloadByIdCore (s : Store) (id : Nat) : HResult :=
  match findById s id with
  | none =>
    .resp { status := 404, headers := [], body := .jsonError "Avatar not found" }
  | some d =>
    let buffer := bufferOf s id
    match (d.metadata.bind (fun m => m.getField "ext")).bind BVal.asString with
    | none => .panic
    | some ext =>
      .resp { status := 200, headers := setResponseHeaders ext buffer,
              body := .raw buffer }

/-- The source expression `avatarMetadata["metadata"].(bson.M)["ext"].(string)`:
`none` models the runtime panic of a failed assertion. -/
def extractExt (d : FileDoc) : Option String :=
  (d.metadata.bind (fun m => m.getField "ext")).bind BVal.asString

/-- The full `GET /api/image/id/:id` handler: parse the path parameter as an
ObjectID (400 with a JSON error body on failure), then `downloadByIdCore`. -/
def getApiImageById (s : Store) (idStr : String) : HResult :=
  match parseObjectId idStr with
  | none =>
    .resp { status := 400, headers := [],
            body := .jsonError "the provided hex string is not a valid ObjectID" }
  | some id => downloadByIdCore s id

/-- The `GET /api/image/name/:name` handler: 404 with a JSON error body when
no files record has the filename; otherwise download by name into a buffer
(error discarded), extract the extension by untyped assertions (panic when
they fail), set the headers and send the buffer with status 200. -/
def getApiImageByName (s : Store) (nm : String) : HResult :=
  match findByName s nm with
  | none =>
    .resp { status := 404, headers := [], body := .jsonError "Avatar not found" }
  | some d =>
    let buffer := bufferByNameOf s nm
    match (d.metadata.bind (fun m => m.getField "ext")).bind BVal.asString with
    | none => .panic
    | some ext =>
      .resp { status := 200, headers := setResponseHeaders ext buffer,
              body := .raw buffer }

instance : IsTotal ChunkDoc (fun a b => a.n ≤ b.n) :=
  ⟨fun a b => Nat.le_total a.n b.n⟩

instance : IsTrans ChunkDoc (fun a b => a.n ≤ b.n) :=
  ⟨fun _ _ _ => Nat.le_trans⟩

/-! ### Helper lemmas about the chunking algorithm -/

theorem chunksOfAux_nil (sz fuel : Nat) : chunksOfAux sz fuel [] = [] := by
  cases fuel <;> rfl

theorem chunksOfAux_ne_nil (sz fuel : Nat) (l : List Byte) (h : l ≠ []) :
    chunksOfAux sz fuel l ≠ [] := by
  cases fuel with
  | zero => cases l with
    | nil => exact absurd rfl h
    | cons x t => simp [chunksOfAux]
  | succ fuel => cases l with
    | nil => exact absurd rfl h
    | cons x t => simp [chunksOfAux]

theorem chunksOfAux_flatten (sz : Nat) (hsz : 0 < sz) :
    ∀ (fuel : Nat) (l : List Byte), l.length ≤ fuel →
      (chunksOfAux sz fuel l).flatten = l := by
  intro fuel
  induction fuel with
  | zero =>
    intro l hl
    have h : l = [] := List.eq_nil_of_length_eq_zero (Nat.le_zero.mp hl)
    subst h; rfl
  | succ fuel ih =>
    intro l hl
    cases l with
    | nil => rfl
    | cons x t =>
      have hlen : t.length + 1 ≤ fuel + 1 := by simpa using hl
      have hdrop : (List.drop sz (x :: t)).length ≤ fuel := by
        simp only [List.length_drop, List.length_cons]
        omega
      simp only [chunksOfAux, List.flatten_cons, ih _ hdrop]
      exact List.take_append_drop sz (x :: t)

theorem chunksOf_flatten (sz : Nat) (hsz : 0 < sz) (l : List Byte) :
    (chunksOf sz l).flatten = l :=
  chunksOfAux_flatten sz hsz l.length l (Nat.le_refl _)

theorem chunksOf_eq_nil_iff (sz : Nat) (l : List Byte) :
    chunksOf sz l = [] ↔ l = [] := by
  constructor
  · intro h
    cases l with
    | nil => rfl
    | cons x t => simp [chunksOf, chunksOfAux] at h
  · intro h; subst h; rfl

theorem chunksOfAux_mem_length (sz : Nat) (hsz : 0 < sz) :
    ∀ (fuel : Nat) (l : List Byte), l.length ≤ fuel →
      ∀ c ∈ chunksOfAux sz fuel l, c.length ≤ sz := by
  intro fuel
  induction fuel with
  | zero =>
    intro l hl c hc
    have h : l = [] := List.eq_nil_of_length_eq_zero (Nat.le_zero.mp hl)
    subst h
    simp [chunksOfAux_nil] at hc
  | succ fuel ih =>
    intro l hl c hc
    cases l with
    | nil => simp [chunksOfAux_nil] at hc
    | cons x t =>
      have hlen : t.length + 1 ≤ fuel + 1 := by simpa using hl
      have hdrop : (List.drop sz (x :: t)).length ≤ fuel := by
        simp only [List.length_drop, List.length_cons]
        omega
      simp only [chunksOfAux, List.mem_cons] at hc
      rcases hc with rfl | hc
      · simp
      · exact ih _ hdrop c hc

theorem chunksOfAux_dropLast_length (sz : Nat) (hsz : 0 < sz) :
    ∀ (fuel : Nat) (l : List Byte), l.length ≤ fuel →
      ∀ c ∈ (chunksOfAux sz fuel l).dropLast, c.length = sz := by
  intro fuel
  induction fuel with
  | zero =>
    intro l hl c hc
    have h : l = [] := List.eq_nil_of_length_eq_zero (Nat.le_zero.mp hl)
    subst h
    simp [chunksOfAux_nil] at hc
  | succ fuel ih =>
    intro l hl c hc
    cases l with
    | nil => simp [chunksOfAux_nil] at hc
    | cons x t =>
      have hlen : t.length + 1 ≤ fuel + 1 := by simpa using hl
      have hdrop : (List.drop sz (x :: t)).length ≤ fuel := by
        simp only [List.length_drop, List.length_cons]
        omega
      simp only [chunksOfAux] at hc
      cases hrest : chunksOfAux sz fuel (List.drop sz (x :: t)) with
      | nil => rw [hrest] at hc; simp at hc
      | cons y ys =>
        rw [hrest, List.dropLast_cons_of_ne_nil (by simp), List.mem_cons] at hc
        rcases hc with rfl | hc
        · have hne : List.drop sz (x :: t) ≠ [] := by
            intro hnil
            rw [hnil, chunksOfAux_nil] at hrest
            exact List.noConfusion hrest
          have hle : sz ≤ (x :: t).length := by
            by_contra hgt
            exact hne (List.drop_eq_nil_of_le (Nat.le_of_not_le hgt))
          simpa using Nat.min_eq_left hle
        · exact ih _ hdrop c (hrest ▸ hc)

theorem chunksOf_dropLast_length (sz : Nat) (hsz : 0 < sz) (l : List Byte) :
    ∀ c ∈ (chunksOf sz l).dropLast, c.length = sz :=
  chunksOfAux_dropLast_length sz hsz l.length l (Nat.le_refl _)

theorem chunksOf_mem_length (sz : Nat) (hsz : 0 < sz) (l : List Byte) :
    ∀ c ∈ chunksOf sz l, c.length ≤ sz :=
  chunksOfAux_mem_length sz hsz l.length l (Nat.le_refl _)

/-! ### Helper lemmas about chunk records -/

theorem mkChunks_map_data (id : Nat) :
    ∀ (i : Nat) (bs : List (List Byte)),
      (mkChunks id i bs).map (fun c => c.data) = bs := by
  intro i bs
  induction bs generalizing i with
  | nil => rfl
  | cons b bs ih => simp [mkChunks, ih]

theorem mkChunks_map_n (id : Nat) :
    ∀ (i : Nat) (bs : List (List Byte)),
      (mkChunks id i bs).map (fun c => c.n) = List.range' i bs.length := by
  intro i bs
  induction bs generalizing i with
  | nil => rfl
  | cons b bs ih => simp [mkChunks, ih, List.range'_succ]

theorem mkChunks_filesId (id i : Nat) (bs : List (List Byte)) :
    ∀ c ∈ mkChunks id i bs, c.filesId = id := by
  induction bs generalizing i with
  | nil => intro c hc; simp [mkChunks] at hc
  | cons b bs ih =>
    intro c hc
    simp only [mkChunks, List.mem_cons] at hc
    rcases hc with rfl | hc
    · rfl
    · exact ih (i + 1) c hc

theorem mkChunks_n_lower (id i : Nat) (bs : List (List Byte)) :
    ∀ c ∈ mkChunks id i bs, i ≤ c.n := by
  induction bs generalizing i with
  | nil => intro c hc; simp [mkChunks] at hc
  | cons b bs ih =>
    intro c hc
    simp only [mkChunks, List.mem_cons] at hc
    rcases hc with rfl | hc
    · exact Nat.le_refl i
    · exact Nat.le_trans (Nat.le_succ i) (ih (i + 1) c hc)

theorem mkChunks_sorted (id i : Nat) (bs : List (List Byte)) :
    List.Sorted (fun a b => a.n ≤ b.n) (mkChunks id i bs) := by
  induction bs generalizing i with
  | nil => exact List.sorted_nil
  | cons b bs ih =>
    refine List.Pairwise.cons ?_ (ih (i + 1))
    intro c hc
    exact Nat.le_trans (Nat.le_succ i) (mkChunks_n_lower id (i + 1) bs c hc)

/-! ### Helper lemmas about the store operations -/

theorem chunksFor_write (sz : Nat) (s : Store) (hwf : s.WF)
    (fn ext : String) (P : List Byte) :
    (s.write sz fn ext P).2.chunksFor s.nextId =
      mkChunks s.nextId 0 (chunksOf sz P) := by
  unfold Store.write Store.chunksFor
  simp only [List.filter_append]
  have h1 : s.chunks.filter (fun c => c.filesId == s.nextId) = [] := by
    rw [List.filter_eq_nil_iff]
    intro c hc
    have hlt := hwf.2 c hc
    simp only [beq_iff_eq]
    omega
  have h2 : (mkChunks s.nextId 0 (chunksOf sz P)).filter
      (fun c => c.filesId == s.nextId) = mkChunks s.nextId 0 (chunksOf sz P) := by
    rw [List.filter_eq_self]
    intro c hc
    simp [mkChunks_filesId s.nextId 0 (chunksOf sz P) c hc]
  rw [h1, h2]
  rfl

theorem findById_write (sz : Nat) (s : Store) (hwf : s.WF) (fn ext : String)
    (P : List Byte) :
    findById (s.write sz fn ext P).2 s.nextId =
      some { id := s.nextId, filename := fn, length := P.length,
             metadata := some (.doc [("ext", .str ext)]) } := by
  unfold Store.write findById
  simp only [List.find?_append]
  have h1 : s.files.find? (fun d => d.id == s.nextId) = none := by
    rw [List.find?_eq_none]
    intro d hd
    have hlt := hwf.1 d hd
    simp only [beq_iff_eq]
    omega
  rw [h1, List.find?_cons_of_pos _ (by simp)]
  rfl

theorem write_WF (sz : Nat) (s : Store) (hwf : s.WF) (fn ext : String)
    (P : List Byte) : (s.write sz fn ext P).2.WF := by
  constructor
  · intro f hf
    simp only [Store.write, List.mem_append, List.mem_singleton] at hf
    rcases hf with hf | rfl
    · exact Nat.lt_succ_of_lt (hwf.1 f hf)
    · exact Nat.lt_succ_self _
  · intro c hc
    simp only [Store.write, List.mem_append] at hc
    rcases hc with hc | hc
    · exact Nat.lt_succ_of_lt (hwf.2 c hc)
    · rw [mkChunks_filesId s.nextId 0 (chunksOf sz P) c hc]
      exact Nat.lt_succ_self _

theorem bufferOf_write (sz : Nat) (hsz : 0 < sz) (s : Store) (hwf : s.WF)
    (fn ext : String) (P : List Byte) :
    bufferOf (s.write sz fn ext P).2 s.nextId = P := by
  unfold bufferOf Store.readById
  rw [chunksFor_write sz s hwf fn ext P,
      List.Sorted.insertionSort_eq (mkChunks_sorted s.nextId 0 (chunksOf sz P))]
  cases hP : chunksOf sz P with
  | nil =>
    have h0 : P = [] := (chunksOf_eq_nil_iff sz P).mp hP
    subst h0
    rfl
  | cons c cs =>
    show ((mkChunks s.nextId 0 (c :: cs)).map (fun c => c.data)).flatten = P
    rw [mkChunks_map_data, ← hP]
    exact chunksOf_flatten sz hsz P

/-! ### Helper lemmas about extension extraction -/

theorem takeWhile_append_all {p : Char → Bool} {l₁ : List Char}
    (l₂ : List Char) (h : ∀ c ∈ l₁, p c = true) :
    (l₁ ++ l₂).takeWhile p = l₁ ++ l₂.takeWhile p := by
  induction l₁ with
  | nil => rfl
  | cons a l ih =>
    have ha : p a = true := h a (List.mem_cons_self a l)
    simp only [List.cons_append, List.takeWhile_cons_of_pos ha]
    rw [ih fun c hc => h c (List.mem_cons_of_mem a hc)]

theorem dropWhile_append_all {p : Char → Bool} {l₁ : List Char}
    (l₂ : List Char) (h : ∀ c ∈ l₁, p c = true) :
    (l₁ ++ l₂).dropWhile p = l₂.dropWhile p := by
  induction l₁ with
  | nil => rfl
  | cons a l ih =>
    have ha : p a = true := h a (List.mem_cons_self a l)
    simp only [List.cons_append, List.dropWhile_cons_of_pos ha]
    exact ih fun c hc => h c (List.mem_cons_of_mem a hc)

theorem extractExtension_eq_iff (f : String) (e : List Char) (hne : e ≠ [])
    (hal : ∀ c ∈ e, isAlnumAscii c = true) :
    extractExtension f = String.mk ('.' :: e) ↔ ∃ u, f.data = u ++ '.' :: e := by
  constructor
  · intro h
    unfold extractExtension at h
    cases hdw : (f.data.reverse.dropWhile isAlnumAscii) with
    | nil =>
      rw [hdw] at h
      have hfalse : ([] : List Char) = '.' :: e := congrArg String.data h
      exact absurd hfalse (by simp)
    | cons c rest =>
      rw [hdw] at h
      replace h : (if c = '.' then
          (if f.data.reverse.takeWhile isAlnumAscii = [] then ""
           else String.mk ('.' :: (f.data.reverse.takeWhile isAlnumAscii).reverse))
        else "") = String.mk ('.' :: e) := h
      by_cases hc : c = '.'
      · subst hc
        rw [if_pos rfl] at h
        by_cases hrun : f.data.reverse.takeWhile isAlnumAscii = []
        · rw [if_pos hrun] at h
          have hfalse : ([] : List Char) = '.' :: e := congrArg String.data h
          exact absurd hfalse (by simp)
        · rw [if_neg hrun] at h
          have hdata : '.' :: (f.data.reverse.takeWhile isAlnumAscii).reverse =
              '.' :: e := congrArg String.data h
          have hrev : (f.data.reverse.takeWhile isAlnumAscii).reverse = e := by
            injection hdata
          refine ⟨rest.reverse, ?_⟩
          have hsplit : f.data.reverse.takeWhile isAlnumAscii ++
              f.data.reverse.dropWhile isAlnumAscii = f.data.reverse :=
            List.takeWhile_append_dropWhile isAlnumAscii f.data.reverse
          rw [hdw] at hsplit
          have hexp : f.data =
              (f.data.reverse.takeWhile isAlnumAscii ++ '.' :: rest).reverse := by
            rw [hsplit, List.reverse_reverse]
          rw [hexp, List.reverse_append, List.reverse_cons, List.append_assoc, hrev]
          simp
      · rw [if_neg hc] at h
        have hfalse : ([] : List Char) = '.' :: e := congrArg String.data h
        exact absurd hfalse (by simp)
  · intro hu
    obtain ⟨u, hu⟩ := hu
    unfold extractExtension
    have hrev : f.data.reverse = e.reverse ++ '.' :: u.reverse := by
      rw [hu, List.reverse_append, List.reverse_cons, List.append_assoc]
      rfl
    have hall : ∀ c ∈ e.reverse, isAlnumAscii c = true := fun c hc =>
      hal c (List.mem_reverse.mp hc)
    have hdot : ¬ isAlnumAscii '.' = true := by decide
    have hdw : f.data.reverse.dropWhile isAlnumAscii = '.' :: u.reverse := by
      rw [hrev, dropWhile_append_all _ hall, List.dropWhile_cons_of_neg hdot]
    have htw : f.data.reverse.takeWhile isAlnumAscii = e.reverse := by
      rw [hrev, takeWhile_append_all _ hall, List.takeWhile_cons_of_neg hdot,
        List.append_nil]
    rw [hdw]
    show (if ('.' : Char) = '.' then
        (if f.data.reverse.takeWhile isAlnumAscii = [] then ""
         else String.mk ('.' :: (f.data.reverse.takeWhile isAlnumAscii).reverse))
      else "") = String.mk ('.' :: e)
    rw [if_pos rfl, htw, if_neg (by simp [hne]), List.reverse_reverse]

theorem extractExtension_jpg_iff (f : String) :
    extractExtension f = ".jpg" ↔ ∃ u, f.data = u ++ ".jpg".data :=
  extractExtension_eq_iff f ['j', 'p', 'g'] (by simp) (by decide)

theorem extractExtension_jpeg_iff (f : String) :
    extractExtension f = ".jpeg" ↔ ∃ u, f.data = u ++ ".jpeg".data :=
  extractExtension_eq_iff f ['j', 'p', 'e', 'g'] (by simp) (by decide)

theorem extractExtension_png_iff (f : String) :
    extractExtension f = ".png" ↔ ∃ u, f.data = u ++ ".png".data :=
  extractExtension_eq_iff f ['p', 'n', 'g'] (by simp) (by decide)

theorem extAllowed_eq_true_iff (f : String) :
    extAllowed f = true ↔
      extractExtension f = ".jpg" ∨ extractExtension f = ".jpeg" ∨
        extractExtension f = ".png" := by
  unfold extAllowed
  simp [or_assoc]

theorem rejectCond_iff (f : String) :
    (extractExtension f ≠ ".jpg" ∧ extractExtension f ≠ ".jpeg" ∧
      extractExtension f ≠ ".png") ↔ extAllowed f = false := by
  unfold extAllowed
  simp [not_or, and_assoc]

/-! ### Helper lemmas about the HTTP handlers -/

theorem lookupForm_single (fld : String) (file : FormFile) :
    lookupForm [(fld, file)] fld = some file := by
  unfold lookupForm
  rw [List.find?_cons_of_pos _ (by simp)]
  rfl

theorem postApiImage_accept (fld : String) (sz : Nat) (s : Store)
    (req : UploadRequest) (file : FormFile)
    (hlook : lookupForm req fld = some file)
    (hext : extAllowed file.filename = true) :
    postApiImage fld sz s req =
      ({ status := 201, headers := [],
         body := .jsonUpload s.nextId file.filename file.content.length },
       (s.write sz file.filename (extractExtension file.filename)
          file.content).2) := by
  have hnot : ¬ (extractExtension file.filename ≠ ".jpg" ∧
      extractExtension file.filename ≠ ".jpeg" ∧
      extractExtension file.filename ≠ ".png") := by
    intro hcond
    have hcontr := (rejectCond_iff file.filename).mp hcond
    rw [hext] at hcontr
    exact Bool.noConfusion hcontr
  simp only [postApiImage, hlook]
  rw [if_neg hnot]
  rfl

theorem postApiImage_reject (fld : String) (sz : Nat) (s : Store)
    (req : UploadRequest) (file : FormFile)
    (hlook : lookupForm req fld = some file)
    (hext : extAllowed file.filename = false) :
    postApiImage fld sz s req =
      ({ status := 400, headers := [], body := .jsonError "Invalid file type" },
       s) := by
  have hcond := (rejectCond_iff file.filename).mpr hext
  simp only [postApiImage, hlook]
  rw [if_pos hcond]

theorem postApiImage_noFile (fld : String) (sz : Nat) (s : Store)
    (req : UploadRequest) (hlook : lookupForm req fld = none) :
    postApiImage fld sz s req =
      ({ status := 400, headers := [],
         body := .jsonError "there is no uploaded file associated with the given key" },
       s) := by
  simp only [postApiImage, hlook]

theorem extractExt_mk (idv : Nat) (fn : String) (len : Nat) (ext : String) :
    extractExt { id := idv, filename := fn, length := len,
                 metadata := some (.doc [("ext", .str ext)]) } = some ext := rfl

theorem downloadByIdCore_found (s : Store) (id : Nat) (d : FileDoc)
    (ext : String) (hfind : findById s id = some d)
    (hext : extractExt d = some ext) :
    downloadByIdCore s id =
      .resp { status := 200, headers := setResponseHeaders ext (bufferOf s id),
              body := .raw (bufferOf s id) } := by
  have hext' : (d.metadata.bind (fun m => m.getField "ext")).bind BVal.asString =
      some ext := hext
  simp only [downloadByIdCore, hfind, hext']

theorem downloadByIdCore_panic (s : Store) (id : Nat) (d : FileDoc)
    (hfind : findById s id = some d) (hext : extractExt d = none) :
    downloadByIdCore s id = .panic := by
  have hext' : (d.metadata.bind (fun m => m.getField "ext")).bind BVal.asString =
      none := hext
  simp only [downloadByIdCore, hfind, hext']

theorem getApiImageByName_found (s : Store) (nm : String) (d : FileDoc)
    (ext : String) (hfind : findByName s nm = some d)
    (hext : extractExt d = some ext) :
    getApiImageByName s nm =
      .resp { status := 200,
              headers := setResponseHeaders ext (bufferByNameOf s nm),
              body := .raw (bufferByNameOf s nm) } := by
  have hext' : (d.metadata.bind (fun m => m.getField "ext")).bind BVal.asString =
      some ext := hext
  simp only [getApiImageByName, hfind, hext']

theorem getApiImageByName_panic (s : Store) (nm : String) (d : FileDoc)
    (hfind : findByName s nm = some d) (hext : extractExt d = none) :
    getApiImageByName s nm = .panic := by
  have hext' : (d.metadata.bind (fun m => m.getField "ext")).bind BVal.asString =
      none := hext
  simp only [getApiImageByName, hfind, hext']

theorem findById_fresh (s : Store) (hwf : s.WF) (id : Nat)
    (h : s.nextId ≤ id) : findById s id = none := by
  rw [findById, List.find?_eq_none]
  intro d hd
  have hlt := hwf.1 d hd
  simp only [beq_iff_eq]
  omega

theorem chunksFor_fresh (s : Store) (hwf : s.WF) (id : Nat)
    (h : s.nextId ≤ id) : s.chunksFor id = [] := by
  rw [Store.chunksFor, List.filter_eq_nil_iff]
  intro c hc
  have hlt := hwf.2 c hc
  simp only [beq_iff_eq]
  omega

theorem emptyStore_WF : emptyStore.WF := by
  constructor
  · intro f hf
    simp [emptyStore] at hf
  · intro c hc
    simp [emptyStore] at hc

theorem setResponseHeaders_cache (ext : String) (bs : List Byte) :
    ("Cache-Control", "public, max-age=31536000") ∈ setResponseHeaders ext bs := by
  unfold setResponseHeaders
  exact List.mem_append.mpr (Or.inr (by simp))

theorem setResponseHeaders_length (ext : String) (bs : List Byte) :
    ("Content-Length", toString bs.length) ∈ setResponseHeaders ext bs := by
  unfold setResponseHeaders
  exact List.mem_append.mpr (Or.inr (by simp))

theorem setResponseHeaders_png (bs : List Byte) :
    ("Content-Type", "image/png") ∈ setResponseHeaders ".png" bs := by
  simp [setResponseHeaders]

theorem setResponseHeaders_jpg (bs : List Byte) :
    ("Content-Type", "image/jpeg") ∈ setResponseHeaders ".jpg" bs := by
  simp [setResponseHeaders]

theorem setResponseHeaders_jpeg (bs : List Byte) :
    ("Content-Type", "image/jpeg") ∈ setResponseHeaders ".jpeg" bs := by
  simp [setResponseHeaders]

theorem downloadByIdCore_resp200_inv (s : Store) (id : Nat) (r : Response)
    (h : downloadByIdCore s id = .resp r) (h200 : r.status = 200) :
    ∃ ext, r.headers = setResponseHeaders ext (bufferOf s id) ∧
      r.body = .raw (bufferOf s id) := by
  cases hf : findById s id with
  | none =>
    unfold downloadByIdCore at h
    rw [hf] at h
    have hr := HResult.resp.inj h
    rw [← hr] at h200
    exact absurd h200 (by decide)
  | some d =>
    cases he : extractExt d with
    | none =>
      rw [downloadByIdCore_panic s id d hf he] at h
      exact HResult.noConfusion h
    | some ext =>
      rw [downloadByIdCore_found s id d ext hf he] at h
      have hr := HResult.resp.inj h
      exact ⟨ext, by rw [← hr], by rw [← hr]⟩

theorem getApiImageByName_resp200_inv (s : Store) (nm : String) (r : Response)
    (h : getApiImageByName s nm = .resp r) (h200 : r.status = 200) :
    ∃ ext, r.headers = setResponseHeaders ext (bufferByNameOf s nm) ∧
      r.body = .raw (bufferByNameOf s nm) := by
  cases hf : findByName s nm with
  | none =>
    unfold getApiImageByName at h
    rw [hf] at h
    have hr := HResult.resp.inj h
    rw [← hr] at h200
    exact absurd h200 (by decide)
  | some d =>
    cases he : extractExt d with
    | none =>
      rw [getApiImageByName_panic s nm d hf he] at h
      exact HResult.noConfusion h
    | some ext =>
      rw [getApiImageByName_found s nm d ext hf he] at h
      have hr := HResult.resp.inj h
      exact ⟨ext, by rw [← hr], by rw [← hr]⟩

theorem downloadByIdCore_cases (s : Store) (id : Nat) (r : Response)
    (h : downloadByIdCore s id = .resp r) :
    r = { status := 404, headers := [], body := .jsonError "Avatar not found" } ∨
      r.status = 200 := by
  cases hf : findById s id with
  | none =>
    unfold downloadByIdCore at h
    rw [hf] at h
    exact Or.inl (HResult.resp.inj h).symm
  | some d =>
    cases he : extractExt d with
    | none =>
      rw [downloadByIdCore_panic s id d hf he] at h
      exact HResult.noConfusion h
    | some ext =>
      rw [downloadByIdCore_found s id d ext hf he] at h
      exact Or.inr (by rw [← HResult.resp.inj h])

theorem getApiImageByName_cases (s : Store) (nm : String) (r : Response)
    (h : getApiImageByName s nm = .resp r) :
    r = { status := 404, headers := [], body := .jsonError "Avatar not found" } ∨
      r.status = 200 := by
  cases hf : findByName s nm with
  | none =>
    unfold getApiImageByName at h
    rw [hf] at h
    exact Or.inl (HResult.resp.inj h).symm
  | some d =>
    cases he : extractExt d with
    | none =>
      rw [getApiImageByName_panic s nm d hf he] at h
      exact HResult.noConfusion h
    | some ext =>
      rw [getApiImageByName_found s nm d ext hf he] at h
      exact Or.inr (by rw [← HResult.resp.inj h])

theorem bufferOf_no_chunks (s : Store) (id : Nat) (h : s.chunksFor id = []) :
    bufferOf s id = [] := by
  unfold bufferOf Store.readById
  rw [h]
  rfl

theorem bufferByNameOf_no_chunks (s : Store) (nm : String) (d : FileDoc)
    (hf : findByName s nm = some d) (h : s.chunksFor d.id = []) :
    bufferByNameOf s nm = [] := by
  unfold bufferByNameOf Store.readByFilename
  rw [hf]
  show (match s.readById d.id with
    | Except.ok bs => bs
    | Except.error _ => []) = []
  unfold Store.readById
  rw [h]
  rfl

/-! ### The claims -/

/-- C2: the chunk store partitions an input byte stream into sequential
blocks of exactly `sz` bytes (only the last block may be smaller), assigns
the blocks sequence numbers 0, 1, 2, … in order, and reassembly by
concatenating the chunks' data fields in ascending sequence-number order
recovers the original stream — for every stream, hence in particular for the
sizes 0, 1, sz-1, sz, sz+1 and 10·sz named by the spec. -/
theorem C2_chunking_round_trip (sz : Nat) (hsz : 0 < sz) (data : List Byte)
    (id : Nat) :
    (∀ c ∈ (chunksOf sz data).dropLast, c.length = sz) ∧
    (∀ c ∈ chunksOf sz data, c.length ≤ sz) ∧
    (mkChunks id 0 (chunksOf sz data)).map (fun c => c.n) =
      List.range (chunksOf sz data).length ∧
    ((mkChunks id 0 (chunksOf sz data)).map (fun c => c.data)).flatten = data :=
  ⟨chunksOf_dropLast_length sz hsz data,
   chunksOf_mem_length sz hsz data,
   by rw [mkChunks_map_n, List.range_eq_range'],
   by rw [mkChunks_map_data]; exact chunksOf_flatten sz hsz data⟩

/-- Witness for C2 at chunk size 3 and a stream of 30 = 10·3 bytes. -/
theorem C2_chunking_round_trip_witness :
    0 < 3 ∧
    ((∀ c ∈ (chunksOf 3 (List.range 30)).dropLast, c.length = 3) ∧
     (∀ c ∈ chunksOf 3 (List.range 30), c.length ≤ 3) ∧
     (mkChunks 5 0 (chunksOf 3 (List.range 30))).map (fun c => c.n) =
       List.range (chunksOf 3 (List.range 30)).length ∧
     ((mkChunks 5 0 (chunksOf 3 (List.range 30))).map (fun c => c.data)).flatten =
       List.range 30) :=
  ⟨by decide, C2_chunking_round_trip 3 (by decide) (List.range 30) 5⟩

/-- C3: the chunk store read-by-id operation fails with `NotFound` exactly
when no chunks exist for the identifier; otherwise it returns the chunks'
data fields concatenated in ascending sequence-number order (stated as: the
output is the concatenation of a sorted permutation of the id's chunks). -/
theorem C3_readById_notFound_iff (s : Store) (id : Nat) :
    (s.readById id = Except.error "NotFound" ↔ s.chunksFor id = []) ∧
    (∀ bs, s.readById id = Except.ok bs →
      ∃ cs, cs.Perm (s.chunksFor id) ∧
        List.Sorted (fun a b => a.n ≤ b.n) cs ∧
        bs = (cs.map (fun c => c.data)).flatten) := by
  have hperm :=
    List.perm_insertionSort (fun a b : ChunkDoc => a.n ≤ b.n) (s.chunksFor id)
  have hsorted :=
    List.sorted_insertionSort (fun a b : ChunkDoc => a.n ≤ b.n) (s.chunksFor id)
  cases hs : List.insertionSort (fun a b => a.n ≤ b.n) (s.chunksFor id) with
  | nil =>
    rw [hs] at hperm
    have hnil : s.chunksFor id = [] := hperm.symm.eq_nil
    refine ⟨⟨fun _ => hnil, fun _ => ?_⟩, fun bs hbs => ?_⟩
    · unfold Store.readById
      rw [hs]
    · unfold Store.readById at hbs
      rw [hs] at hbs
      exact Except.noConfusion hbs
  | cons c cs =>
    rw [hs] at hperm hsorted
    refine ⟨⟨fun h => ?_, fun h => ?_⟩, fun bs hbs => ?_⟩
    · unfold Store.readById at h
      rw [hs] at h
      exact Except.noConfusion h
    · rw [h] at hperm
      exact absurd hperm.eq_nil (by simp)
    · unfold Store.readById at hbs
      rw [hs] at hbs
      exact ⟨c :: cs, hperm, hsorted, (Except.ok.inj hbs).symm⟩

/-- Witness for C3 on a store holding two chunks for id 1, read back in
sequence order. -/
theorem C3_readById_notFound_iff_witness :
    Store.readById twoChunkStore 1 = Except.ok [10, 20] ∧
    ∃ cs, cs.Perm (Store.chunksFor twoChunkStore 1) ∧
      List.Sorted (fun a b => a.n ≤ b.n) cs ∧
      [10, 20] = (cs.map (fun c => c.data)).flatten :=
  ⟨rfl, (C3_readById_notFound_iff twoChunkStore 1).2 [10, 20] rfl⟩

/-- C4: an upload whose filename has no allowed extension is answered with
status 400 and creates no object: the store is returned unchanged, and every
lookup for an id the request could have produced (any id not issued before
the request) finds neither a files record nor chunks. -/
theorem C4_invalid_extension_rejected (s : Store) (P : List Byte)
    (F fld : String) (hwf : s.WF) (hext : extAllowed F = false) :
    postApiImage fld defaultChunkSize s [(fld, { filename := F, content := P })] =
      ({ status := 400, headers := [], body := .jsonError "Invalid file type" },
       s) ∧
    ∀ id, s.nextId ≤ id →
      findById (postApiImage fld defaultChunkSize s
        [(fld, { filename := F, content := P })]).2 id = none ∧
      (postApiImage fld defaultChunkSize s
        [(fld, { filename := F, content := P })]).2.chunksFor id = [] := by
  have hpost := postApiImage_reject fld defaultChunkSize s
    [(fld, { filename := F, content := P })] { filename := F, content := P }
    (lookupForm_single fld _) hext
  refine ⟨hpost, fun id hid => ?_⟩
  rw [hpost]
  exact ⟨findById_fresh s hwf id hid, chunksFor_fresh s hwf id hid⟩

/-- Witness for C4: uploading `doc.pdf` against the empty store. -/
theorem C4_invalid_extension_rejected_witness :
    extAllowed "doc.pdf" = false ∧
    (postApiImage "image" defaultChunkSize emptyStore
        [("image", { filename := "doc.pdf", content := [1, 2] })] =
      ({ status := 400, headers := [], body := .jsonError "Invalid file type" },
       emptyStore) ∧
     ∀ id, emptyStore.nextId ≤ id →
       findById (postApiImage "image" defaultChunkSize emptyStore
         [("image", { filename := "doc.pdf", content := [1, 2] })]).2 id = none ∧
       (postApiImage "image" defaultChunkSize emptyStore
         [("image", { filename := "doc.pdf", content := [1, 2] })]).2.chunksFor
           id = []) :=
  ⟨by decide,
   C4_invalid_extension_rejected emptyStore [1, 2] "doc.pdf" "image"
     emptyStore_WF (by decide)⟩

/-- C5: a filename passes the upload handler's extension check exactly when
it ends, case-sensitively, in `.jpg`, `.jpeg` or `.png`; every other
filename is rejected with status 400. -/
theorem C5_extension_allow_set (f : String) :
    (extAllowed f = true ↔
      (∃ u, f.data = u ++ ".jpg".data) ∨ (∃ u, f.data = u ++ ".jpeg".data) ∨
      (∃ u, f.data = u ++ ".png".data)) ∧
    (∀ (fld : String) (s : Store) (P : List Byte), extAllowed f = false →
      postApiImage fld defaultChunkSize s [(fld, { filename := f, content := P })] =
        ({ status := 400, headers := [], body := .jsonError "Invalid file type" },
         s)) := by
  constructor
  · rw [extAllowed_eq_true_iff]
    constructor
    · intro h
      rcases h with h | h | h
      · exact Or.inl ((extractExtension_jpg_iff f).mp h)
      · exact Or.inr (Or.inl ((extractExtension_jpeg_iff f).mp h))
      · exact Or.inr (Or.inr ((extractExtension_png_iff f).mp h))
    · intro h
      rcases h with h | h | h
      · exact Or.inl ((extractExtension_jpg_iff f).mpr h)
      · exact Or.inr (Or.inl ((extractExtension_jpeg_iff f).mpr h))
      · exact Or.inr (Or.inr ((extractExtension_png_iff f).mpr h))
  · intro fld s P hext
    exact postApiImage_reject fld defaultChunkSize s
      [(fld, { filename := f, content := P })] { filename := f, content := P }
      (lookupForm_single fld _) hext

/-- Witness for C5: the uppercase variant `photo.PNG` is rejected. -/
theorem C5_extension_allow_set_witness :
    extAllowed "photo.PNG" = false ∧
    postApiImage "image" defaultChunkSize emptyStore
        [("image", { filename := "photo.PNG", content := [3] })] =
      ({ status := 400, headers := [], body := .jsonError "Invalid file type" },
       emptyStore) :=
  ⟨by decide,
   (C5_extension_allow_set "photo.PNG").2 "image" emptyStore [3] (by decide)⟩

/-- C1: uploading payload `P` with a filename carrying an allowed extension
answers 201 with the new object id, and downloading by any id string that
parses to that id yields exactly `P` byte for byte with the headers computed
from the filename's extension; the Content-Type among them is image/png for
`.png` and image/jpeg for `.jpg`/`.jpeg`. -/
theorem C1_upload_download_round_trip (s : Store) (P : List Byte)
    (F fld : String) (hwf : s.WF) (hext : extAllowed F = true) :
    (postApiImage fld defaultChunkSize s
        [(fld, { filename := F, content := P })]).1 =
      { status := 201, headers := [],
        body := .jsonUpload s.nextId F P.length } ∧
    (∀ idStr, parseObjectId idStr = some s.nextId →
      getApiImageById
        (postApiImage fld defaultChunkSize s
          [(fld, { filename := F, content := P })]).2 idStr =
        .resp { status := 200,
                headers := setResponseHeaders (extractExtension F) P,
                body := .raw P }) ∧
    ∃ ct, ("Content-Type", ct) ∈ setResponseHeaders (extractExtension F) P ∧
      (extractExtension F = ".png" → ct = "image/png") ∧
      (extractExtension F = ".jpg" ∨ extractExtension F = ".jpeg" →
        ct = "image/jpeg") := by
  have hpost := postApiImage_accept fld defaultChunkSize s
    [(fld, { filename := F, content := P })] { filename := F, content := P }
    (lookupForm_single fld _) hext
  have hsz : 0 < defaultChunkSize := by decide
  refine ⟨by rw [hpost], fun idStr hid => ?_, ?_⟩
  · have hs2 : (postApiImage fld defaultChunkSize s
        [(fld, { filename := F, content := P })]).2 =
        (s.write defaultChunkSize F (extractExtension F) P).2 := by rw [hpost]
    rw [hs2]
    simp only [getApiImageById, hid]
    have hfind := findById_write defaultChunkSize s hwf F (extractExtension F) P
    have hbuf := bufferOf_write defaultChunkSize hsz s hwf F (extractExtension F) P
    rw [downloadByIdCore_found _ _ _ (extractExtension F) hfind
      (extractExt_mk _ _ _ _), hbuf]
  · rcases (extAllowed_eq_true_iff F).mp hext with h | h | h
    · refine ⟨"image/jpeg", ?_, ?_, fun _ => rfl⟩
      · rw [h]; exact setResponseHeaders_jpg P
      · intro hpng; rw [h] at hpng; exact absurd hpng (by decide)
    · refine ⟨"image/jpeg", ?_, ?_, fun _ => rfl⟩
      · rw [h]; exact setResponseHeaders_jpeg P
      · intro hpng; rw [h] at hpng; exact absurd hpng (by decide)
    · refine ⟨"image/png", ?_, fun _ => rfl, ?_⟩
      · rw [h]; exact setResponseHeaders_png P
      · intro hj
        rcases hj with hj | hj <;> rw [h] at hj <;> exact absurd hj (by decide)

/-- Witness for C1: payload [7, 8, 9] uploaded as `a.png` to the empty store
and downloaded back via the 24-digit hex form of id 0. -/
theorem C1_upload_download_round_trip_witness :
    extAllowed "a.png" = true ∧
    parseObjectId "000000000000000000000000" = some emptyStore.nextId ∧
    getApiImageById
      (postApiImage "image" defaultChunkSize emptyStore
        [("image", { filename := "a.png", content := [7, 8, 9] })]).2
      "000000000000000000000000" =
      .resp { status := 200,
              headers := setResponseHeaders (extractExtension "a.png") [7, 8, 9],
              body := .raw [7, 8, 9] } :=
  ⟨by decide, by decide,
   (C1_upload_download_round_trip emptyStore [7, 8, 9] "a.png" "image"
      emptyStore_WF (by decide)).2.1 "000000000000000000000000" (by decide)⟩

/-- C6: every successful (status 200) download response, by id or by name,
has a raw-bytes body, carries the Cache-Control header
`public, max-age=31536000` and a Content-Length equal to the byte length of
the body, and its Content-Type is image/png when the stored extension is
`.png` and image/jpeg when it is `.jpg` or `.jpeg`. -/
theorem C6_success_response_headers (s : Store) (id : Nat) (nm : String)
    (r : Response)
    (h : downloadByIdCore s id = .resp r ∨ getApiImageByName s nm = .resp r)
    (h200 : r.status = 200) :
    ∃ bs ext, r.body = .raw bs ∧ r.headers = setResponseHeaders ext bs ∧
      ("Cache-Control", "public, max-age=31536000") ∈ r.headers ∧
      ("Content-Length", toString bs.length) ∈ r.headers ∧
      (ext = ".png" → ("Content-Type", "image/png") ∈ r.headers) ∧
      (ext = ".jpg" ∨ ext = ".jpeg" →
        ("Content-Type", "image/jpeg") ∈ r.headers) := by
  rcases h with h | h
  · obtain ⟨ext, hh, hb⟩ := downloadByIdCore_resp200_inv s id r h h200
    refine ⟨bufferOf s id, ext, hb, hh, ?_, ?_, ?_, ?_⟩
    · rw [hh]; exact setResponseHeaders_cache ext (bufferOf s id)
    · rw [hh]; exact setResponseHeaders_length ext (bufferOf s id)
    · intro hpng; rw [hh, hpng]; exact setResponseHeaders_png (bufferOf s id)
    · intro hj
      rcases hj with hj | hj
      · rw [hh, hj]; exact setResponseHeaders_jpg (bufferOf s id)
      · rw [hh, hj]; exact setResponseHeaders_jpeg (bufferOf s id)
  · obtain ⟨ext, hh, hb⟩ := getApiImageByName_resp200_inv s nm r h h200
    refine ⟨bufferByNameOf s nm, ext, hb, hh, ?_, ?_, ?_, ?_⟩
    · rw [hh]; exact setResponseHeaders_cache ext (bufferByNameOf s nm)
    · rw [hh]; exact setResponseHeaders_length ext (bufferByNameOf s nm)
    · intro hpng; rw [hh, hpng]; exact setResponseHeaders_png (bufferByNameOf s nm)
    · intro hj
      rcases hj with hj | hj
      · rw [hh, hj]; exact setResponseHeaders_jpg (bufferByNameOf s nm)
      · rw [hh, hj]; exact setResponseHeaders_jpeg (bufferByNameOf s nm)

/-- Witness for C6 on the store produced by writing one byte as `a.png`. -/
theorem C6_success_response_headers_witness :
    ∃ bs ext,
      Body.raw [7] = Body.raw bs ∧
      setResponseHeaders ".png" [7] = setResponseHeaders ext bs ∧
      ("Cache-Control", "public, max-age=31536000") ∈ setResponseHeaders ".png" [7] ∧
      ("Content-Length", toString bs.length) ∈ setResponseHeaders ".png" [7] ∧
      (ext = ".png" →
        ("Content-Type", "image/png") ∈ setResponseHeaders ".png" [7]) ∧
      (ext = ".jpg" ∨ ext = ".jpeg" →
        ("Content-Type", "image/jpeg") ∈ setResponseHeaders ".png" [7]) :=
  C6_success_response_headers
    (emptyStore.write defaultChunkSize "a.png" ".png" [7]).2 0 ""
    { status := 200, headers := setResponseHeaders ".png" [7],
      body := .raw [7] }
    (Or.inl rfl) rfl

/-- C7 counterexample: the claim says failed read operations answer with an
empty or plain (non-JSON-structured) body, but the by-id download's 404
response body is the structured JSON object {error:true, msg:"Avatar not
found"}. -/
theorem C7_counterexample_read_error_body_is_json :
    getApiImageById emptyStore "aaaaaaaaaaaaaaaaaaaaaaaa" =
      .resp { status := 404, headers := [],
              body := .jsonError "Avatar not found" } ∧
    Body.isJsonObject (.jsonError "Avatar not found") = true :=
  ⟨rfl, rfl⟩

/-- C7 (amended): every failure response of the upload (write) path carries
the structured JSON error body {error:true, msg:..}, and every failure
response of the read paths (malformed id, not found by id or by name)
carries a body of the same structured JSON error form — not an empty or
plain one. -/
theorem C7_amended_all_error_bodies_json (s : Store) :
    (∀ fld sz req r s2, postApiImage fld sz s req = (r, s2) →
      r.status ≠ 201 → ∃ m, r.body = .jsonError m) ∧
    (∀ idStr r, getApiImageById s idStr = .resp r → r.status ≠ 200 →
      ∃ m, r.body = .jsonError m) ∧
    (∀ nm r, getApiImageByName s nm = .resp r → r.status ≠ 200 →
      ∃ m, r.body = .jsonError m) := by
  refine ⟨fun fld sz req r s2 hpost h201 => ?_,
    fun idStr r hget h200 => ?_, fun nm r hget h200 => ?_⟩
  · cases hl : lookupForm req fld with
    | none =>
      rw [postApiImage_noFile fld sz s req hl] at hpost
      injection hpost with h1 h2
      exact ⟨"there is no uploaded file associated with the given key",
        by rw [← h1]⟩
    | some file =>
      by_cases he : extAllowed file.filename = true
      · rw [postApiImage_accept fld sz s req file hl he] at hpost
        injection hpost with h1 h2
        rw [← h1] at h201
        exact absurd rfl h201
      · have hff : extAllowed file.filename = false := by
          cases hb : extAllowed file.filename with
          | false => rfl
          | true => exact absurd hb he
        rw [postApiImage_reject fld sz s req file hl hff] at hpost
        injection hpost with h1 h2
        exact ⟨"Invalid file type", by rw [← h1]⟩
  · cases hp : parseObjectId idStr with
    | none =>
      unfold getApiImageById at hget
      rw [hp] at hget
      have hr := HResult.resp.inj hget
      exact ⟨"the provided hex string is not a valid ObjectID", by rw [← hr]⟩
    | some id =>
      unfold getApiImageById at hget
      rw [hp] at hget
      rcases downloadByIdCore_cases s id r hget with hr | hs200
      · exact ⟨"Avatar not found", by rw [hr]⟩
      · exact absurd hs200 h200
  · rcases getApiImageByName_cases s nm r hget with hr | hs200
    · exact ⟨"Avatar not found", by rw [hr]⟩
    · exact absurd hs200 h200

/-- Witness for the amended C7: the malformed-id read failure `zz` carries a
structured JSON error body. -/
theorem C7_amended_witness :
    ∃ m, Body.jsonError "the provided hex string is not a valid ObjectID" =
      .jsonError m := by
  have h := (C7_amended_all_error_bodies_json emptyStore).2.1 "zz"
    { status := 400, headers := [],
      body := .jsonError "the provided hex string is not a valid ObjectID" }
    rfl (by decide)
  exact h

/-- C8: the upload handler takes the image from the named multipart form
field (`image` in the full source, `file` in the variant `main.go`, both
instances of the same parameterized handler): a request with no file in that
field is answered 400 with a JSON error body and leaves the store unchanged,
and when the field holds a file with an allowed extension the handler's 201
response reports that file's name and byte count. -/
theorem C8_multipart_form_field (fld : String) (s : Store)
    (req : UploadRequest) :
    (lookupForm req fld = none →
      postApiImage fld defaultChunkSize s req =
        ({ status := 400, headers := [],
           body := .jsonError "there is no uploaded file associated with the given key" },
         s)) ∧
    (∀ file, lookupForm req fld = some file → extAllowed file.filename = true →
      (postApiImage fld defaultChunkSize s req).1 =
        { status := 201, headers := [],
          body := .jsonUpload s.nextId file.filename file.content.length }) := by
  refine ⟨fun h => postApiImage_noFile fld defaultChunkSize s req h,
    fun file hl he => ?_⟩
  rw [postApiImage_accept fld defaultChunkSize s req file hl he]

/-- Witness for C8: a request with no form fields at all is answered 400. -/
theorem C8_multipart_form_field_witness :
    lookupForm [] "image" = none ∧
    postApiImage "image" defaultChunkSize emptyStore [] =
      ({ status := 400, headers := [],
         body := .jsonError "there is no uploaded file associated with the given key" },
       emptyStore) :=
  ⟨rfl, (C8_multipart_form_field "image" emptyStore []).1 rfl⟩

/-- C9: when a files record exists (and its metadata is readable), the
download handlers answer 200 with the buffer as the body no matter what the
chunk read returned — its error result is discarded — so a record whose
chunks are absent yields 200 with an empty body rather than an error
status. -/
theorem C9_chunk_read_errors_discarded (s : Store) :
    (∀ id d ext, findById s id = some d → extractExt d = some ext →
      downloadByIdCore s id =
        .resp { status := 200,
                headers := setResponseHeaders ext (bufferOf s id),
                body := .raw (bufferOf s id) } ∧
      (s.chunksFor id = [] → bufferOf s id = [])) ∧
    (∀ nm d ext, findByName s nm = some d → extractExt d = some ext →
      getApiImageByName s nm =
        .resp { status := 200,
                headers := setResponseHeaders ext (bufferByNameOf s nm),
                body := .raw (bufferByNameOf s nm) } ∧
      (s.chunksFor d.id = [] → bufferByNameOf s nm = [])) := by
  constructor
  · intro id d ext hf he
    exact ⟨downloadByIdCore_found s id d ext hf he,
      fun hch => bufferOf_no_chunks s id hch⟩
  · intro nm d ext hf he
    exact ⟨getApiImageByName_found s nm d ext hf he,
      fun hch => bufferByNameOf_no_chunks s nm d hf hch⟩

/-- Witness for C9: `orphanStore` has a files record for id 0 but no chunks;
the by-id download still answers 200, with an empty body. -/
theorem C9_chunk_read_errors_discarded_witness :
    (downloadByIdCore orphanStore 0 =
      .resp { status := 200,
              headers := setResponseHeaders ".png" (bufferOf orphanStore 0),
              body := .raw (bufferOf orphanStore 0) } ∧
     (orphanStore.chunksFor 0 = [] → bufferOf orphanStore 0 = [])) ∧
    bufferOf orphanStore 0 = [] :=
  ⟨(C9_chunk_read_errors_discarded orphanStore).1 0 orphanDoc ".png" rfl rfl,
   rfl⟩

/-- C10: the download handlers read the stored extension through untyped
type assertions, so a matching files record whose metadata is not a document
with a string field `ext` makes the handler panic instead of producing an
error response; the handlers rely on the invariant — established by the
upload handler — that every files record it creates carries metadata of
exactly the form {ext: <string>}. -/
theorem C10_untyped_metadata_assertions :
    (∀ s id d, findById s id = some d → extractExt d = none →
      downloadByIdCore s id = .panic) ∧
    (∀ s nm d, findByName s nm = some d → extractExt d = none →
      getApiImageByName s nm = .panic) ∧
    (∀ fld sz s req r s2, postApiImage fld sz s req = (r, s2) →
      ∀ d ∈ s2.files, d ∈ s.files ∨
        ∃ e, d.metadata = some (.doc [("ext", .str e)])) := by
  refine ⟨fun s id d hf he => downloadByIdCore_panic s id d hf he,
    fun s nm d hf he => getApiImageByName_panic s nm d hf he,
    fun fld sz s req r s2 hpost d hd => ?_⟩
  cases hl : lookupForm req fld with
  | none =>
    rw [postApiImage_noFile fld sz s req hl] at hpost
    injection hpost with h1 h2
    rw [← h2] at hd
    exact Or.inl hd
  | some file =>
    by_cases he : extAllowed file.filename = true
    · rw [postApiImage_accept fld sz s req file hl he] at hpost
      injection hpost with h1 h2
      rw [← h2] at hd
      replace hd : d ∈ s.files ++
          [{ id := s.nextId, filename := file.filename,
             length := file.content.length,
             metadata := some (.doc [("ext",
               .str (extractExtension file.filename))]) }] := hd
      rcases List.mem_append.mp hd with hd | hd
      · exact Or.inl hd
      · rw [List.mem_singleton] at hd
        subst hd
        exact Or.inr ⟨extractExtension file.filename, rfl⟩
    · have hff : extAllowed file.filename = false := by
        cases hb : extAllowed file.filename with
        | false => rfl
        | true => exact absurd hb he
      rw [postApiImage_reject fld sz s req file hl hff] at hpost
      injection hpost with h1 h2
      rw [← h2] at hd
      exact Or.inl hd

/-- Witness for C10: `badStore` has a files record for id 0 whose metadata
is absent, and the by-id download panics on it. -/
theorem C10_untyped_metadata_assertions_witness :
    downloadByIdCore badStore 0 = HResult.panic :=
  C10_untyped_metadata_assertions.1 badStore 0 badDoc rfl rfl

end GoMongoFs
